import Mathlib

/-!
Verification development for the site-plan-tool repository.

The embedding covers the two specified subsystems:
* the Token Authority (`generateSignedToken` / `verifySignedToken` in
  `server.js`), modelled over byte strings (`List Nat` of character codes)
  with executable base64url, hex and decimal codecs; the HMAC-SHA256
  primitive from Node's `crypto` library is a parameter of the functions,
* the placement upload endpoint (`POST /api/installation/:id/placement` in
  `server.js`) together with `attachFileToInstallation` and
  `associateEngagementToInstallation` from `src/hubspot-client.js`, with the
  outcome of each remote HTTP call as a parameter,
* the client-side annotation session (`public/app.js`): tool selection,
  marker placement, path drawing with the proximity finish gesture, clear,
  save-button recomputation and the save flow.
-/

/-- JavaScript strings appearing in the token code are ASCII byte strings;
they are modelled as lists of character codes. -/
abbrev JStr := List Nat

/-- Seven days in milliseconds, `TOKEN_EXPIRY_MS` in `server.js`. -/
def TOKEN_EXPIRY_MS : Nat := 7 * 24 * 60 * 60 * 1000

/-- Character code of a 6-bit value in the base64url alphabet
(`A-Z`, `a-z`, `0-9`, `-`, `_`). -/
def sextetToCode (s : Nat) : Nat :=
  if s < 26 then 65 + s
  else if s < 52 then 97 + (s - 26)
  else if s < 62 then 48 + (s - 52)
  else if s = 62 then 45
  else 95

/-- Inverse of the base64url alphabet; `none` on characters outside the
alphabet (Node's decoder skips such characters). -/
def codeToSextet (c : Nat) : Option Nat :=
  if 65 ≤ c ∧ c ≤ 90 then some (c - 65)
  else if 97 ≤ c ∧ c ≤ 122 then some (c - 97 + 26)
  else if 48 ≤ c ∧ c ≤ 57 then some (c - 48 + 52)
  else if c = 45 then some 62
  else if c = 95 then some 63
  else none

/-- Base64url encoding of a byte string, without padding, as produced by
`Buffer.toString('base64url')` in `generateSignedToken`. -/
def b64urlEncode : List Nat → List Nat
  | b0 :: b1 :: b2 :: rest =>
      sextetToCode (b0 / 4) :: sextetToCode (b0 % 4 * 16 + b1 / 16) ::
      sextetToCode (b1 % 16 * 4 + b2 / 64) :: sextetToCode (b2 % 64) ::
      b64urlEncode rest
  | [b0, b1] =>
      [sextetToCode (b0 / 4), sextetToCode (b0 % 4 * 16 + b1 / 16),
       sextetToCode (b1 % 16 * 4)]
  | [b0] => [sextetToCode (b0 / 4), sextetToCode (b0 % 4 * 16)]
  | [] => []

/-- Reassemble bytes from a stream of 6-bit values; a trailing lone sextet
carries no complete byte and is dropped, as in Node's decoder. -/
def sextetsToBytes : List Nat → List Nat
  | s0 :: s1 :: s2 :: s3 :: rest =>
      (s0 * 4 + s1 / 16) :: (s1 % 16 * 16 + s2 / 4) :: (s2 % 4 * 64 + s3) ::
      sextetsToBytes rest
  | [s0, s1, s2] => [s0 * 4 + s1 / 16, s1 % 16 * 16 + s2 / 4]
  | [s0, s1] => [s0 * 4 + s1 / 16]
  | _ => []

/-- Base64url decoding as performed by `Buffer.from(token, 'base64url')`:
characters outside the alphabet are skipped, then sextets are packed. -/
def b64urlDecode (l : List Nat) : List Nat :=
  sextetsToBytes (l.filterMap codeToSextet)

/-- Lowercase hex digit character code for a value below 16, as in
`digest('hex')`. -/
def hexDigitCode (d : Nat) : Nat := if d < 10 then 48 + d else 87 + d

/-- Hex encoding of a byte string (`digest('hex')`). -/
def hexEncode : List Nat → List Nat
  | [] => []
  | b :: rest => hexDigitCode (b / 16) :: hexDigitCode (b % 16) :: hexEncode rest

/-- Value of a hex digit character (`0-9`, `a-f`, `A-F`); `none` otherwise. -/
def hexDigitVal (c : Nat) : Option Nat :=
  if 48 ≤ c ∧ c ≤ 57 then some (c - 48)
  else if 97 ≤ c ∧ c ≤ 102 then some (c - 87)
  else if 65 ≤ c ∧ c ≤ 70 then some (c - 55)
  else none

/-- Hex decoding as performed by `Buffer.from(s, 'hex')`: bytes are parsed
two digits at a time and decoding stops at the first invalid digit or at an
odd trailing digit. -/
def hexDecode : List Nat → List Nat
  | c1 :: c2 :: rest =>
      match hexDigitVal c1, hexDigitVal c2 with
      | some h, some l => (16 * h + l) :: hexDecode rest
      | _, _ => []
  | _ => []

/-- Model of `crypto.timingSafeEqual`: throws (here `none`) when the two
buffers differ in length, otherwise reports byte equality. -/
def timingSafeEqual (a b : List Nat) : Option Bool :=
  if a.length = b.length then some (a == b) else none

/-- Decimal digit characters of `n`, most significant first, produced with a
structural fuel argument so that the definition evaluates by kernel
reduction; `fuel` only needs to dominate the digit count. -/
def natToCharsAux : Nat → Nat → List Nat
  | 0, _ => []
  | fuel + 1, n => if n = 0 then [] else natToCharsAux fuel (n / 10) ++ [48 + n % 10]

/-- Character codes of the decimal rendering of a natural number, as in a
JavaScript template literal interpolating a nonnegative integer. -/
def natToChars (n : Nat) : List Nat :=
  if n = 0 then [48] else natToCharsAux (n + 1) n

/-- Character codes of the decimal rendering of an integer. -/
def intToChars : Int → List Nat
  | Int.ofNat n => natToChars n
  | Int.negSucc n => 45 :: natToChars (n + 1)

/-- Decimal digit test on a character code. -/
def isDigitCode (c : Nat) : Bool := decide (48 ≤ c ∧ c ≤ 57)

/-- Value of a big-endian digit-character string. -/
def digitsVal (l : List Nat) : Nat :=
  l.foldl (fun a c => 10 * a + (c - 48)) 0

/-- Maximal leading run of decimal digits, `none` when the string does not
start with a digit. -/
def parseNatLeading (l : List Nat) : Option Nat :=
  match l with
  | [] => none
  | c :: _ =>
      if isDigitCode c then some (digitsVal (l.takeWhile isDigitCode)) else none

/-- JavaScript whitespace trimmed by `parseInt` before parsing (ECMA-262
StrWhiteSpaceChar, restricted to the modelled character codes: TAB, LF, VT,
FF, CR, SP, NBSP). -/
def isJsWhitespace (c : Nat) : Bool :=
  decide (c = 9 ∨ c = 10 ∨ c = 11 ∨ c = 12 ∨ c = 13 ∨ c = 32 ∨ c = 160)

/-- Model of JavaScript `parseInt(s, 10)`: leading whitespace is trimmed,
then an optional sign is followed by the maximal run of decimal digits;
`none` stands for `NaN`. -/
def parseIntChars (l : List Nat) : Option Int :=
  match l.dropWhile isJsWhitespace with
  | [] => none
  | c :: rest =>
      if c = 45 then (parseNatLeading rest).map (fun n => -(n : Int))
      else if c = 43 then (parseNatLeading rest).map (fun n => (n : Int))
      else (parseNatLeading (c :: rest)).map (fun n => (n : Int))

/-- Model of JavaScript `s.split(':')` (character code 58). -/
def splitColon : List Nat → List (List Nat)
  | [] => [[]]
  | c :: rest =>
      if c = 58 then [] :: splitColon rest
      else
        match splitColon rest with
        | [] => [[c]]
        | g :: gs => (c :: g) :: gs

/-- Model of `generateSignedToken` in `server.js`: with no secret it throws
(`none`); otherwise it computes `expiry = now + TOKEN_EXPIRY_MS`, signs
`installationId:expiry` with the keyed hash, and base64url-encodes
`expiry:hex(signature)`.  The HMAC-SHA256 primitive is the parameter
`hmac`, taking the secret and the data. -/
def generateSignedToken (installationId secret : JStr)
    (hmac : JStr → JStr → JStr) (now : Nat) : Option JStr :=
  if secret = [] then none
  else
    let expiry := now + TOKEN_EXPIRY_MS
    let data := installationId ++ 58 :: natToChars expiry
    let signature := hexEncode (hmac secret data)
    some (b64urlEncode (natToChars expiry ++ 58 :: signature))

/-- Result record of `verifySignedToken`: `{ valid, error? }`. -/
structure VerifyResult where
  valid : Bool
  error : Option String
deriving Repr, DecidableEq

/-- Model of `verifySignedToken` in `server.js`.  Empty strings model absent
(falsy) `secret` and `token`.  The `try`/`catch` around the body is
reflected in the two `Invalid token format` branches: `Buffer.from` throws
on a missing signature part (`undefined`), and `crypto.timingSafeEqual`
throws when the decoded buffers differ in length. -/
def verifySignedToken (installationId token secret : JStr)
    (hmac : JStr → JStr → JStr) (now : Nat) : VerifyResult :=
  if secret = [] then ⟨true, none⟩
  else if token = [] then ⟨false, some "Missing authentication token"⟩
  else
    let decoded := b64urlDecode token
    let parts := splitColon decoded
    match parseIntChars (parts.headD []) with
    | none => ⟨false, some "Token has expired"⟩
    | some expiry =>
      if (now : Int) > expiry then ⟨false, some "Token has expired"⟩
      else
        let data := installationId ++ 58 :: intToChars expiry
        let expectedSignature := hexEncode (hmac secret data)
        match parts[1]? with
        | none => ⟨false, some "Invalid token format"⟩
        | some providedSignature =>
          match timingSafeEqual (hexDecode providedSignature) (hexDecode expectedSignature) with
          | none => ⟨false, some "Invalid token format"⟩
          | some ok =>
            if ok then ⟨true, none⟩ else ⟨false, some "Invalid token signature"⟩

/-- Outcome of one remote HTTP call made by `src/hubspot-client.js`:
a 2xx response with a well-formed body, a non-2xx or unparseable response,
or a transport error. -/
inductive RemoteOutcome where
  | success
  | httpError (msg : String)
  | netError (msg : String)
deriving Repr, DecidableEq

/-- Model of `associateEngagementToInstallation`: both the non-2xx branch
and the request-error handler `resolve({})`, so the promise never rejects
whatever the outcome of the association call. -/
def associateEngagementToInstallation (outcome : RemoteOutcome) : Except String Unit :=
  match outcome with
  | .success => .ok ()
  | .httpError _ => .ok ()
  | .netError _ => .ok ()

/-- Model of `attachFileToInstallation`: the note-creation call rejects on a
non-2xx or unparseable response and on a transport error; on success it
awaits the association step, which never rejects. -/
def attachFileToInstallation (note assoc : RemoteOutcome) : Except String Unit :=
  match note with
  | .success => associateEngagementToInstallation assoc
  | .httpError m => .error m
  | .netError m => .error m

/-- Model of `uploadFileToHubSpot`: resolves with the file id on a 2xx
response, rejects otherwise. -/
def uploadFileToHubSpot (outcome : RemoteOutcome) (fileId : Nat) : Except String Nat :=
  match outcome with
  | .success => .ok fileId
  | .httpError m => .error m
  | .netError m => .error m

/-- HTTP status and the `success` flag of the placement endpoint's reply. -/
structure PlacementResponse where
  status : Nat
  success : Bool
deriving Repr, DecidableEq

/-- Model of the `POST /api/installation/:id/placement` handler in
`server.js` (after the auth gate): missing HubSpot configuration gives 500,
a missing file gives 400, then the upload and the attach step are awaited in
the same `try`, whose `catch` replies 500. -/
def placementHandler (hubspotConfigured hasFile : Bool)
    (upload note assoc : RemoteOutcome) : PlacementResponse :=
  if !hubspotConfigured then ⟨500, false⟩
  else if !hasFile then ⟨400, false⟩
  else
    match uploadFileToHubSpot upload 1 with
    | .error _ => ⟨500, false⟩
    | .ok _ =>
      match attachFileToInstallation note assoc with
      | .error _ => ⟨500, false⟩
      | .ok _ => ⟨200, true⟩

/-- Active tool of the annotation session (`currentTool` in
`public/app.js`). -/
inductive Tool where
  | idu
  | odu
  | line
deriving Repr, DecidableEq

/-- Marker type, the `unitLabel` tag (`'IDU'` / `'ODU'`). -/
inductive UnitLabel where
  | idu
  | odu
deriving Repr, DecidableEq

/-- Canvas coordinates; `public/app.js` compares squared distances of tap
coordinates, modelled over the integers. -/
structure Point where
  x : Int
  y : Int
deriving Repr, DecidableEq

/-- Fabric canvas objects relevant to the session state: unit marker groups
(tagged `unitLabel`), path point circles (`isLinePoint`), path segments
(`isLineSegment`, with their dashed stroke flag) and untagged background
decorations (grid lines, placeholder text, images). -/
inductive CanvasObj where
  | unitMarker (label : UnitLabel) (x y : Int)
  | linePoint (x y : Int)
  | lineSegment (x1 y1 x2 y2 : Int) (dashed : Bool)
  | decor
deriving Repr, DecidableEq

/-- Test for a unit marker of the given label. -/
def isUnitMarker (label : UnitLabel) : CanvasObj → Bool
  | .unitMarker l _ _ => l == label
  | _ => false

/-- Test for a path point circle. -/
def isLinePointObj : CanvasObj → Bool
  | .linePoint _ _ => true
  | _ => false

/-- Test for a path segment. -/
def isLineSegmentObj : CanvasObj → Bool
  | .lineSegment _ _ _ _ _ => true
  | _ => false

/-- Dashed stroke flag of a canvas object (`false` on non-segments). -/
def CanvasObj.dashedFlag : CanvasObj → Bool
  | .lineSegment _ _ _ _ d => d
  | _ => false

/-- Client-side annotation session state of `public/app.js`: the module
variables `currentTool`, `iduPlaced`, `oduPlaced`, `linePoints`, the canvas
object list, the save button's `disabled` property and the success modal
visibility.  (The declared `currentLine` variable is only ever written and
is not modelled.) -/
structure AppState where
  currentTool : Tool
  iduPlaced : Bool
  oduPlaced : Bool
  linePoints : List Point
  objects : List CanvasObj
  saveDisabled : Bool
  successShown : Bool
deriving Repr, DecidableEq

/-- Unit markers of one label currently on the canvas. -/
def unitMarkers (label : UnitLabel) (objs : List CanvasObj) : List CanvasObj :=
  objs.filter (isUnitMarker label)

/-- Model of `selectTool`: only the state variable matters here, button
classes and the instruction text are presentation. -/
def selectTool (t : Tool) (s : AppState) : AppState :=
  { s with currentTool := t }

/-- Model of `updateSaveButton`: the save button is enabled iff at least one
unit is placed. -/
def updateSaveButton (s : AppState) : AppState :=
  { s with saveDisabled := !(s.iduPlaced || s.oduPlaced) }

/-- Model of `placeUnit`: remove every existing unit of the same label, then
add the new marker group at the tapped coordinates. -/
def placeUnit (label : UnitLabel) (x y : Int) (s : AppState) : AppState :=
  { s with objects :=
      s.objects.filter (fun o => !isUnitMarker label o) ++ [.unitMarker label x y] }

/-- Squared euclidean distance between two points; `addLinePoint` compares
`Math.sqrt` of this against 30, equivalently the square against 900. -/
def dist2 (p q : Point) : Int := (q.x - p.x) ^ 2 + (q.y - p.y) ^ 2

/-- Model of `solidify`-ing one object in `finishLine`: segments lose their
dash array, every other object is untouched. -/
def solidify : CanvasObj → CanvasObj
  | .lineSegment x1 y1 x2 y2 _ => .lineSegment x1 y1 x2 y2 false
  | o => o

/-- Model of `finishLine`: a no-op below two points, otherwise all segments
become solid and the active tool switches back to IDU placement. -/
def finishLine (s : AppState) : AppState :=
  if s.linePoints.length < 2 then s
  else selectTool .idu { s with objects := s.objects.map solidify }

/-- Model of `addLinePoint`: with more than one point already placed, a tap
within squared distance 900 of the last point finishes the line; otherwise
the point is appended, its circle added, a dashed segment from the previous
point added and sent to back, and the save button recomputed. -/
def addLinePoint (x y : Int) (s : AppState) : AppState :=
  if s.linePoints.length > 1 ∧ dist2 (s.linePoints.getLastD ⟨0, 0⟩) ⟨x, y⟩ < 900 then
    finishLine s
  else
    let pts := s.linePoints ++ [⟨x, y⟩]
    let objs := s.objects ++ [.linePoint x y]
    let objs2 :=
      if pts.length > 1 then
        let prev := s.linePoints.getLastD ⟨0, 0⟩
        CanvasObj.lineSegment prev.x prev.y x y true :: objs
      else objs
    updateSaveButton { s with linePoints := pts, objects := objs2 }

/-- Model of `handleCanvasTap`: taps on an existing interactive object do
nothing; otherwise the active tool handles the tap, unit placements setting
their flag and recomputing the save button. -/
def handleCanvasTap (x y : Int) (onObject : Bool) (s : AppState) : AppState :=
  if onObject then s
  else
    match s.currentTool with
    | .idu => updateSaveButton { placeUnit .idu x y s with iduPlaced := true }
    | .odu => updateSaveButton { placeUnit .odu x y s with oduPlaced := true }
    | .line => addLinePoint x y s

/-- Model of `clearAll`: remove every tagged object (markers, path points,
path segments), reset the flags and the path, recompute the save button;
the active tool is unchanged. -/
def clearAll (s : AppState) : AppState :=
  updateSaveButton
    { s with
      objects := s.objects.filter (fun o =>
        !(isUnitMarker .idu o || isUnitMarker .odu o ||
          isLinePointObj o || isLineSegmentObj o)),
      iduPlaced := false, oduPlaced := false, linePoints := [] }

/-- Outcome of the export upload in `savePlacement`: success, a non-ok
response, or a network error thrown by `fetch`. -/
inductive UploadOutcome where
  | ok
  | httpError
  | netError
deriving Repr, DecidableEq

/-- Model of `savePlacement`: an early return when the button is disabled;
the button is disabled while the upload is in flight; on failure the catch
re-enables it, and no session variable is touched anywhere in the flow; on
success the modal is shown and the button stays disabled until the modal is
closed. -/
def savePlacement (outcome : UploadOutcome) (s : AppState) : AppState :=
  if s.saveDisabled then s
  else
    match outcome with
    | .ok => { s with saveDisabled := true, successShown := true }
    | .httpError => { s with saveDisabled := false }
    | .netError => { s with saveDisabled := false }

/-- Model of `closeSuccessModal`: hides the modal and resets the save
button. -/
def closeSuccessModal (s : AppState) : AppState :=
  { s with successShown := false, saveDisabled := false }

/-- Discrete user interactions driving the session state machine. -/
inductive UserEvent where
  | tap (x y : Int) (onObject : Bool)
  | chooseTool (t : Tool)
  | clear
  | save (outcome : UploadOutcome)
deriving Repr, DecidableEq

/-- One step of the session state machine. -/
def step (e : UserEvent) (s : AppState) : AppState :=
  match e with
  | .tap x y onObject => handleCanvasTap x y onObject s
  | .chooseTool t => selectTool t s
  | .clear => clearAll s
  | .save o => savePlacement o s

/-- Run a sequence of user events from a state. -/
def run (evs : List UserEvent) (s : AppState) : AppState :=
  evs.foldl (fun st e => step e st) s

/-- Session state on page load: IDU tool active, nothing placed, empty
path, save disabled, modal hidden. -/
def initialState : AppState :=
  { currentTool := .idu, iduPlaced := false, oduPlaced := false,
    linePoints := [], objects := [], saveDisabled := true, successShown := false }

/-- Save events (the only events whose handler is not a session mutation or
tool selection). -/
def UserEvent.isSave : UserEvent → Bool
  | .save _ => true
  | _ => false

/-- Tool that places markers of the given label. -/
def toolOf : UnitLabel → Tool
  | .idu => .idu
  | .odu => .odu

/-- Invariant tying the save control to the marker flags and the flags to
the markers actually on the canvas; it holds in the initial state and is
preserved by every session mutation. -/
def eligibilityInv (s : AppState) : Prop :=
  s.saveDisabled = !(s.iduPlaced || s.oduPlaced) ∧
  (s.iduPlaced = true ↔ unitMarkers .idu s.objects ≠ []) ∧
  (s.oduPlaced = true ↔ unitMarkers .odu s.objects ≠ [])

/-- Concrete stand-in keyed hash for witnesses: a constant 32-byte digest. -/
def constHmac : JStr → JStr → JStr := fun _ _ => List.replicate 32 7

/-- Concrete stand-in keyed hash for witnesses that distinguishes data
strings by their first byte. -/
def headHmac : JStr → JStr → JStr := fun _ d => d.headD 0 % 256 :: List.replicate 31 0

/-- Concrete session used by witnesses: one IDU marker placed, save
enabled. -/
def enabledSession : AppState :=
  { currentTool := .idu, iduPlaced := true, oduPlaced := false,
    linePoints := [⟨1, 2⟩], objects := [.unitMarker .idu 1 2],
    saveDisabled := false, successShown := false }

/-- Concrete session used by witnesses: the path tool active with a single
path point. -/
def singlePointSession : AppState :=
  { currentTool := .line, iduPlaced := false, oduPlaced := false,
    linePoints := [⟨0, 0⟩], objects := [.linePoint 0 0],
    saveDisabled := true, successShown := false }

/-- Concrete session used by witnesses: the path tool active with the
two-point path of the specification's example. -/
def twoPointSession : AppState :=
  { currentTool := .line, iduPlaced := false, oduPlaced := false,
    linePoints := [⟨0, 0⟩, ⟨100, 0⟩],
    objects := [.linePoint 0 0, .linePoint 100 0, .lineSegment 0 0 100 0 true],
    saveDisabled := true, successShown := false }

/-- Concrete session used by witnesses: IDU tool active, nothing placed. -/
def blankIduSession : AppState :=
  { currentTool := .idu, iduPlaced := false, oduPlaced := false,
    linePoints := [], objects := [CanvasObj.decor],
    saveDisabled := true, successShown := false }

/-- The base64url alphabet tables are mutually inverse on 6-bit values. -/
theorem codeToSextet_sextetToCode : ∀ s < 64, codeToSextet (sextetToCode s) = some s := by
  decide

/-- The hex digit tables are mutually inverse on 4-bit values. -/
theorem hexDigitVal_hexDigitCode : ∀ d < 16, hexDigitVal (hexDigitCode d) = some d := by
  decide

/-- Hex digit characters are bytes and are never a colon. -/
theorem hexDigitCode_bound : ∀ d < 16, hexDigitCode d < 256 ∧ hexDigitCode d ≠ 58 := by
  decide

/-- Base64url decoding inverts encoding on byte strings. -/
theorem b64url_roundtrip (l : List Nat) (h : ∀ b ∈ l, b < 256) :
    b64urlDecode (b64urlEncode l) = l := by
  induction l using b64urlEncode.induct with
  | case1 b0 b1 b2 rest ih =>
    have h0 : b0 < 256 := h b0 (by simp)
    have h1 : b1 < 256 := h b1 (by simp)
    have h2 : b2 < 256 := h b2 (by simp)
    have ih' := ih (fun b hb => h b (by simp [hb]))
    have e0 := codeToSextet_sextetToCode (b0 / 4) (by omega)
    have e1 := codeToSextet_sextetToCode (b0 % 4 * 16 + b1 / 16) (by omega)
    have e2 := codeToSextet_sextetToCode (b1 % 16 * 4 + b2 / 64) (by omega)
    have e3 := codeToSextet_sextetToCode (b2 % 64) (by omega)
    rw [b64urlDecode] at ih' ⊢
    rw [b64urlEncode]
    simp only [List.filterMap_cons, e0, e1, e2, e3]
    rw [sextetsToBytes, ih']
    simp only [List.cons.injEq]
    refine ⟨by omega, by omega, by omega, trivial⟩
  | case2 b0 b1 =>
    have h0 : b0 < 256 := h b0 (by simp)
    have h1 : b1 < 256 := h b1 (by simp)
    have e0 := codeToSextet_sextetToCode (b0 / 4) (by omega)
    have e1 := codeToSextet_sextetToCode (b0 % 4 * 16 + b1 / 16) (by omega)
    have e2 := codeToSextet_sextetToCode (b1 % 16 * 4) (by omega)
    rw [b64urlDecode, b64urlEncode]
    simp only [List.filterMap_cons, e0, e1, e2, List.filterMap_nil]
    rw [sextetsToBytes]
    simp only [List.cons.injEq]
    refine ⟨by omega, by omega, trivial⟩
  | case3 b0 =>
    have h0 : b0 < 256 := h b0 (by simp)
    have e0 := codeToSextet_sextetToCode (b0 / 4) (by omega)
    have e1 := codeToSextet_sextetToCode (b0 % 4 * 16) (by omega)
    rw [b64urlDecode, b64urlEncode]
    simp only [List.filterMap_cons, e0, e1, List.filterMap_nil]
    rw [sextetsToBytes]
    simp only [List.cons.injEq]
    refine ⟨by omega, trivial⟩
  | case4 => rfl

/-- Encoding a nonempty byte string yields a nonempty token. -/
theorem b64urlEncode_ne_nil (l : List Nat) (h : l ≠ []) : b64urlEncode l ≠ [] := by
  match l with
  | [] => exact absurd rfl h
  | [b0] => simp [b64urlEncode]
  | [b0, b1] => simp [b64urlEncode]
  | b0 :: b1 :: b2 :: rest => simp [b64urlEncode]

/-- Hex decoding inverts encoding on byte strings. -/
theorem hex_roundtrip (l : List Nat) (h : ∀ b ∈ l, b < 256) :
    hexDecode (hexEncode l) = l := by
  induction l with
  | nil => rfl
  | cons b rest ih =>
    have hb : b < 256 := h b (by simp)
    have e1 := hexDigitVal_hexDigitCode (b / 16) (by omega)
    have e2 := hexDigitVal_hexDigitCode (b % 16) (by omega)
    rw [hexEncode, hexDecode]
    simp only [e1, e2]
    rw [ih (fun x hx => h x (by simp [hx]))]
    simp only [List.cons.injEq]
    exact ⟨by omega, trivial⟩

/-- Hex encodings of byte strings consist of bytes, none of them a colon. -/
theorem hexEncode_mem (l : List Nat) (h : ∀ b ∈ l, b < 256) :
    ∀ c ∈ hexEncode l, c < 256 ∧ c ≠ 58 := by
  induction l with
  | nil => intro c hc; simp [hexEncode] at hc
  | cons b rest ih =>
    have hb : b < 256 := h b (by simp)
    intro c hc
    rw [hexEncode] at hc
    simp only [List.mem_cons] at hc
    rcases hc with rfl | rfl | hc
    · exact hexDigitCode_bound (b / 16) (by omega)
    · exact hexDigitCode_bound (b % 16) (by omega)
    · exact ih (fun x hx => h x (by simp [hx])) c hc

/-- All characters produced by the decimal renderer are digit characters. -/
theorem natToCharsAux_mem :
    ∀ fuel n : Nat, ∀ c ∈ natToCharsAux fuel n, 48 ≤ c ∧ c ≤ 57 := by
  intro fuel
  induction fuel with
  | zero => intro n c hc; simp [natToCharsAux] at hc
  | succ f ih =>
    intro n c hc
    rw [natToCharsAux] at hc
    by_cases hn : n = 0
    · simp [hn] at hc
    · rw [if_neg hn] at hc
      simp only [List.mem_append, List.mem_singleton] at hc
      rcases hc with hc | rfl
      · exact ih _ _ hc
      · omega

/-- All characters of `natToChars n` are digit characters. -/
theorem natToChars_mem (n : Nat) : ∀ c ∈ natToChars n, 48 ≤ c ∧ c ≤ 57 := by
  intro c hc
  rw [natToChars] at hc
  by_cases hn : n = 0
  · rw [if_pos hn] at hc; simp at hc; omega
  · rw [if_neg hn] at hc; exact natToCharsAux_mem _ _ _ hc

/-- The decimal rendering of a natural number is never empty. -/
theorem natToChars_ne_nil (n : Nat) : natToChars n ≠ [] := by
  rw [natToChars]
  by_cases hn : n = 0
  · rw [if_pos hn]; simp
  · rw [if_neg hn, natToCharsAux, if_neg hn]; simp

/-- Folding the digit-accumulation step over the decimal rendering recovers
the number, for any starting accumulator. -/
theorem foldl_digits_aux : ∀ fuel n a : Nat, n ≤ fuel →
    List.foldl (fun acc c => 10 * acc + (c - 48)) a (natToCharsAux fuel n) =
      a * 10 ^ (natToCharsAux fuel n).length + n := by
  intro fuel
  induction fuel with
  | zero =>
    intro n a h
    have hn : n = 0 := by omega
    subst hn
    simp [natToCharsAux]
  | succ f ih =>
    intro n a h
    by_cases hn : n = 0
    · subst hn; simp [natToCharsAux]
    · rw [natToCharsAux, if_neg hn, List.foldl_append, ih (n / 10) a (by omega)]
      simp only [List.foldl_cons, List.foldl_nil, List.length_append,
        List.length_cons, List.length_nil, Nat.add_sub_cancel_left]
      rw [pow_succ]
      calc 10 * (a * 10 ^ (natToCharsAux f (n / 10)).length + n / 10) + n % 10
          = a * (10 ^ (natToCharsAux f (n / 10)).length * 10) +
              (10 * (n / 10) + n % 10) := by ring
        _ = a * (10 ^ (natToCharsAux f (n / 10)).length * 10) + n := by
              rw [Nat.div_add_mod]

/-- Evaluating the digit string of `n` gives back `n`. -/
theorem digitsVal_natToChars (n : Nat) : digitsVal (natToChars n) = n := by
  by_cases hn : n = 0
  · subst hn; rfl
  · rw [natToChars, if_neg hn]
    unfold digitsVal
    rw [foldl_digits_aux (n + 1) n 0 (by omega)]
    simp

/-- `takeWhile` keeps a list all of whose elements satisfy the test. -/
theorem takeWhile_of_forall {α : Type} (p : α → Bool) (l : List α)
    (h : ∀ a ∈ l, p a = true) : l.takeWhile p = l := by
  induction l with
  | nil => rfl
  | cons a t ih =>
    rw [List.takeWhile_cons, h a (by simp)]
    simp [ih (fun x hx => h x (by simp [hx]))]

/-- `parseInt` recovers a natural number from its decimal rendering. -/
theorem parseIntChars_natToChars (n : Nat) :
    parseIntChars (natToChars n) = some (n : Int) := by
  obtain ⟨c, cs, hcs⟩ := List.exists_cons_of_ne_nil (natToChars_ne_nil n)
  have hall : ∀ a ∈ c :: cs, isDigitCode a = true := by
    intro a ha
    have hmem := natToChars_mem n a (by rw [hcs]; exact ha)
    exact decide_eq_true hmem
  have hc' : 48 ≤ c ∧ c ≤ 57 := of_decide_eq_true (hall c (by simp))
  have hw : ¬(isJsWhitespace c = true) := by
    simp [isJsWhitespace]
    omega
  have hdrop : (c :: cs).dropWhile isJsWhitespace = c :: cs := by
    rw [List.dropWhile_cons, if_neg hw]
  rw [hcs]
  simp only [parseIntChars, hdrop]
  rw [if_neg (by omega), if_neg (by omega), parseNatLeading]
  rw [hall c (by simp)]
  simp only [if_true]
  rw [takeWhile_of_forall _ _ hall, ← hcs, digitsVal_natToChars]
  rfl

/-- Splitting a colon-free string yields the single-group list. -/
theorem splitColon_no_colon (l : List Nat) (h : ∀ c ∈ l, c ≠ 58) :
    splitColon l = [l] := by
  induction l with
  | nil => rfl
  | cons c rest ih =>
    rw [splitColon, if_neg (h c (by simp)), ih (fun x hx => h x (by simp [hx]))]

/-- Splitting around the first colon of a colon-free head. -/
theorem splitColon_append (a b : List Nat) (h : ∀ c ∈ a, c ≠ 58) :
    splitColon (a ++ 58 :: b) = a :: splitColon b := by
  induction a with
  | nil => simp [splitColon]
  | cons c rest ih =>
    rw [List.cons_append, splitColon, if_neg (h c (by simp))]
    rw [ih (fun x hx => h x (by simp [hx]))]

/-- Splitting a two-field colon-separated string. -/
theorem splitColon_payload (a b : List Nat) (ha : ∀ c ∈ a, c ≠ 58)
    (hb : ∀ c ∈ b, c ≠ 58) : splitColon (a ++ 58 :: b) = [a, b] := by
  rw [splitColon_append a b ha, splitColon_no_colon b hb]

/-- Rendering a natural number cast to an integer agrees with the natural
rendering. -/
theorem intToChars_coe (n : Nat) : intToChars (n : Int) = natToChars n := rfl

/-- `timingSafeEqual` on equal buffers reports `true`. -/
theorem timingSafeEqual_self (a : List Nat) : timingSafeEqual a a = some true := by
  simp [timingSafeEqual]

/-- `timingSafeEqual` on equal-length distinct buffers reports `false`. -/
theorem timingSafeEqual_ne (a b : List Nat) (hlen : a.length = b.length)
    (hne : a ≠ b) : timingSafeEqual a b = some false := by
  rw [timingSafeEqual, if_pos hlen]
  simp [beq_eq_false_iff_ne, hne]

/-- C9: with no signing secret configured, verification succeeds for every
installation id and every token value, including the empty token. -/
theorem no_secret_always_valid (installationId token : JStr)
    (hmac : JStr → JStr → JStr) (now : Nat) :
    verifySignedToken installationId token [] hmac now = ⟨true, none⟩ := rfl

/-- Verification of a canonically shaped token `base64url(digits(e):sig)`:
decoding and splitting recover the two fields, the expiry parses, and the
outcome reduces to the expiry test followed by the signature comparison. -/
theorem verify_canonical (installationId secret : JStr) (hmac : JStr → JStr → JStr)
    (now e : Nat) (sig : JStr) (hs : secret ≠ [])
    (hsig : ∀ c ∈ sig, c < 256 ∧ c ≠ 58) :
    verifySignedToken installationId (b64urlEncode (natToChars e ++ 58 :: sig))
        secret hmac now =
      (if (now : Int) > (e : Int) then (⟨false, some "Token has expired"⟩ : VerifyResult)
       else
         match timingSafeEqual (hexDecode sig)
             (hexDecode (hexEncode (hmac secret (installationId ++ 58 :: natToChars e)))) with
         | none => ⟨false, some "Invalid token format"⟩
         | some ok => if ok then ⟨true, none⟩ else ⟨false, some "Invalid token signature"⟩) := by
  have hdigit := natToChars_mem e
  have hpaybytes : ∀ b ∈ natToChars e ++ 58 :: sig, b < 256 := by
    intro b hb
    simp only [List.mem_append, List.mem_cons] at hb
    rcases hb with h1 | h1 | h1
    · have := hdigit b h1; omega
    · omega
    · exact (hsig b h1).1
  have hdec := b64url_roundtrip _ hpaybytes
  have htok := b64urlEncode_ne_nil (natToChars e ++ 58 :: sig) (by simp)
  have hsplit := splitColon_payload (natToChars e) sig
    (fun c hc => by have := hdigit c hc; omega)
    (fun c hc => (hsig c hc).2)
  simp only [verifySignedToken]
  rw [if_neg hs, if_neg htok]
  simp only [hdec, hsplit, List.headD_cons, parseIntChars_natToChars,
    List.getElem?_cons_succ, List.getElem?_cons_zero, intToChars_coe]

/-- C1: a token minted at time `t0` for an installation id verifies with the
same id and secret at time `t1` exactly when `t1 ≤ t0 + 7` days.  The keyed
hash is an abstract parameter; the hypothesis states that its digest is a
byte string, as every HMAC-SHA256 digest is. -/
theorem mint_verify_valid_iff (installationId secret : JStr)
    (hmac : JStr → JStr → JStr) (t0 t1 : Nat)
    (hs : secret ≠ [])
    (hb : ∀ b ∈ hmac secret (installationId ++ 58 :: natToChars (t0 + TOKEN_EXPIRY_MS)),
      b < 256) :
    ∃ tok, generateSignedToken installationId secret hmac t0 = some tok ∧
      ((verifySignedToken installationId tok secret hmac t1).valid = true ↔
        t1 ≤ t0 + TOKEN_EXPIRY_MS) := by
  refine ⟨b64urlEncode (natToChars (t0 + TOKEN_EXPIRY_MS) ++ 58 ::
    hexEncode (hmac secret (installationId ++ 58 :: natToChars (t0 + TOKEN_EXPIRY_MS)))),
    ?_, ?_⟩
  · simp only [generateSignedToken]
    rw [if_neg hs]
  · rw [verify_canonical installationId secret hmac t1 (t0 + TOKEN_EXPIRY_MS)
      (hexEncode (hmac secret (installationId ++ 58 :: natToChars (t0 + TOKEN_EXPIRY_MS))))
      hs (hexEncode_mem _ hb)]
    by_cases hle : t1 ≤ t0 + TOKEN_EXPIRY_MS
    · rw [if_neg (by omega), timingSafeEqual_self]
      simp [hle]
    · rw [if_pos (by omega)]
      simp [hle]

/-- C2: a token minted for installation `idA` fails verification when
presented with a different installation id `idB`, within its expiry window,
with the invalid-signature reason.  The keyed hash is abstract, so the
statement carries the HMAC-SHA256 facts it relies on: digests are byte
strings of a common length, and the digests of the two distinct data
strings differ (collision resistance at these two inputs). -/
theorem token_bound_to_installation (idA idB secret : JStr)
    (hmac : JStr → JStr → JStr) (t0 t1 : Nat)
    (hs : secret ≠ []) (hids : idA ≠ idB)
    (hbA : ∀ b ∈ hmac secret (idA ++ 58 :: natToChars (t0 + TOKEN_EXPIRY_MS)), b < 256)
    (hbB : ∀ b ∈ hmac secret (idB ++ 58 :: natToChars (t0 + TOKEN_EXPIRY_MS)), b < 256)
    (hlen : (hmac secret (idA ++ 58 :: natToChars (t0 + TOKEN_EXPIRY_MS))).length
          = (hmac secret (idB ++ 58 :: natToChars (t0 + TOKEN_EXPIRY_MS))).length)
    (hcoll : hmac secret (idA ++ 58 :: natToChars (t0 + TOKEN_EXPIRY_MS))
           ≠ hmac secret (idB ++ 58 :: natToChars (t0 + TOKEN_EXPIRY_MS)))
    (hexp : t1 ≤ t0 + TOKEN_EXPIRY_MS) :
    ∃ tok, generateSignedToken idA secret hmac t0 = some tok ∧
      verifySignedToken idB tok secret hmac t1 =
        ⟨false, some "Invalid token signature"⟩ := by
  refine ⟨b64urlEncode (natToChars (t0 + TOKEN_EXPIRY_MS) ++ 58 ::
    hexEncode (hmac secret (idA ++ 58 :: natToChars (t0 + TOKEN_EXPIRY_MS)))),
    ?_, ?_⟩
  · simp only [generateSignedToken]
    rw [if_neg hs]
  · rw [verify_canonical idB secret hmac t1 (t0 + TOKEN_EXPIRY_MS)
      (hexEncode (hmac secret (idA ++ 58 :: natToChars (t0 + TOKEN_EXPIRY_MS))))
      hs (hexEncode_mem _ hbA)]
    rw [if_neg (by omega), hex_roundtrip _ hbA, hex_roundtrip _ hbB,
      timingSafeEqual_ne _ _ hlen hcoll]
    rfl

/-- C8 counterexample: the concrete present token encoding the malformed
payload `abc:d` is rejected with the expired reason, not with the
invalid-format reason the claim requires for malformed tokens. -/
theorem malformed_token_reports_expired :
    b64urlEncode [97, 98, 99, 58, 100] ≠ [] ∧
    verifySignedToken [105] (b64urlEncode [97, 98, 99, 58, 100]) [115] constHmac 0 =
      ⟨false, some "Token has expired"⟩ := by
  refine ⟨by decide, rfl⟩

/-- C8 amended: for a present token under a configured secret, a token whose
expiry field does not parse as a number is rejected with the expired reason;
a parsed expiry in the past also gives the expired reason; the
invalid-format reason arises for a parsed, unexpired token whose signature
field is missing, and likewise when the signature field is present but its
hex decoding differs in length from the expected digest (the throwing
`timingSafeEqual` call). -/
theorem verify_reason_characterization (installationId token secret : JStr)
    (hmac : JStr → JStr → JStr) (now : Nat)
    (hs : secret ≠ []) (ht : token ≠ []) :
    (parseIntChars ((splitColon (b64urlDecode token)).headD []) = none →
      verifySignedToken installationId token secret hmac now =
        ⟨false, some "Token has expired"⟩) ∧
    (∀ e : Int, parseIntChars ((splitColon (b64urlDecode token)).headD []) = some e →
      (now : Int) > e →
      verifySignedToken installationId token secret hmac now =
        ⟨false, some "Token has expired"⟩) ∧
    (∀ e : Int, parseIntChars ((splitColon (b64urlDecode token)).headD []) = some e →
      ¬((now : Int) > e) → (splitColon (b64urlDecode token))[1]? = none →
      verifySignedToken installationId token secret hmac now =
        ⟨false, some "Invalid token format"⟩) ∧
    (∀ e : Int, parseIntChars ((splitColon (b64urlDecode token)).headD []) = some e →
      ¬((now : Int) > e) →
      ∀ ps, (splitColon (b64urlDecode token))[1]? = some ps →
      timingSafeEqual (hexDecode ps)
          (hexDecode (hexEncode (hmac secret (installationId ++ 58 :: intToChars e)))) =
        none →
      verifySignedToken installationId token secret hmac now =
        ⟨false, some "Invalid token format"⟩) := by
  refine ⟨?_, ?_, ?_, ?_⟩
  · intro hparse
    simp only [verifySignedToken]
    rw [if_neg hs, if_neg ht]
    simp only [hparse]
  · intro e hparse hgt
    simp only [verifySignedToken]
    rw [if_neg hs, if_neg ht]
    simp only [hparse]
    rw [if_pos hgt]
  · intro e hparse hgt hsig
    simp only [verifySignedToken]
    rw [if_neg hs, if_neg ht]
    simp only [hparse, hsig]
    rw [if_neg hgt]
  · intro e hparse hgt ps hsig hlen
    simp only [verifySignedToken]
    rw [if_neg hs, if_neg ht]
    simp only [hparse, hsig]
    rw [if_neg hgt]
    simp only [hlen]

/-- Witness instantiating `mint_verify_valid_iff` at concrete inputs. -/
theorem mint_verify_valid_iff_witness :
    (([115] : JStr) ≠ [] ∧
      (∀ b ∈ constHmac [115] ([97] ++ 58 :: natToChars (0 + TOKEN_EXPIRY_MS)), b < 256)) ∧
    (∃ tok, generateSignedToken [97] [115] constHmac 0 = some tok ∧
      ((verifySignedToken [97] tok [115] constHmac 0).valid = true ↔
        0 ≤ 0 + TOKEN_EXPIRY_MS)) :=
  ⟨⟨by decide, by decide⟩,
    mint_verify_valid_iff [97] [115] constHmac 0 0 (by decide) (by decide)⟩

/-- Witness instantiating `token_bound_to_installation` at concrete inputs. -/
theorem token_bound_to_installation_witness :
    (([115] : JStr) ≠ [] ∧ ([97] : JStr) ≠ [98] ∧
      headHmac [115] ([97] ++ 58 :: natToChars (0 + TOKEN_EXPIRY_MS)) ≠
        headHmac [115] ([98] ++ 58 :: natToChars (0 + TOKEN_EXPIRY_MS)) ∧
      0 ≤ 0 + TOKEN_EXPIRY_MS) ∧
    (∃ tok, generateSignedToken [97] [115] headHmac 0 = some tok ∧
      verifySignedToken [98] tok [115] headHmac 0 =
        ⟨false, some "Invalid token signature"⟩) :=
  ⟨⟨by decide, by decide, by decide, by decide⟩,
    token_bound_to_installation [97] [98] [115] headHmac 0 0
      (by decide) (by decide) (by decide) (by decide) (by decide) (by decide)
      (by decide)⟩

/-- Witness instantiating `verify_reason_characterization` at two concrete
present malformed tokens: one whose expiry field does not parse, and one
whose unexpired payload `5:ab` carries a signature of the wrong length. -/
theorem verify_reason_characterization_witness :
    (([115] : JStr) ≠ [] ∧ ([65] : JStr) ≠ [] ∧
      parseIntChars ((splitColon (b64urlDecode [65])).headD []) = none) ∧
    verifySignedToken [105] [65] [115] constHmac 5 =
      ⟨false, some "Token has expired"⟩ ∧
    verifySignedToken [105] (b64urlEncode [53, 58, 97, 98]) [115] constHmac 0 =
      ⟨false, some "Invalid token format"⟩ :=
  ⟨⟨by decide, by decide, by decide⟩,
    (verify_reason_characterization [105] [65] [115] constHmac 5
      (by decide) (by decide)).1 (by decide),
    (verify_reason_characterization [105] (b64urlEncode [53, 58, 97, 98]) [115]
        constHmac 0 (by decide) (by decide)).2.2.2 5
      (by decide) (by decide) [97, 98] (by decide) (by decide)⟩

/-- C3 counterexample: with the upload call succeeding and the note-creation
(attach) call failing, the placement endpoint replies 500 with no success
flag, contradicting the claim that it still reports success. -/
theorem placement_attach_failure_not_success :
    uploadFileToHubSpot .success 1 = .ok 1 ∧
    placementHandler true true .success (.httpError "upstream rejected note") .success =
      ⟨500, false⟩ :=
  ⟨rfl, rfl⟩

/-- C3 amended: only the association sub-step is best-effort.  After a
successful upload and note creation the endpoint reports success whatever
the association outcome; a failing note-creation (attach) call after a
successful upload is surfaced as a 500 failure. -/
theorem placement_assoc_swallowed_note_surfaced (assoc : RemoteOutcome) :
    placementHandler true true .success .success assoc = ⟨200, true⟩ ∧
    (∀ m, placementHandler true true .success (.httpError m) assoc = ⟨500, false⟩) ∧
    (∀ m, placementHandler true true .success (.netError m) assoc = ⟨500, false⟩) := by
  refine ⟨?_, fun m => rfl, fun m => rfl⟩
  cases assoc <;> rfl

/-- C6: when the save control is enabled, a failed export upload leaves
every piece of annotation state (markers, flags, path, canvas objects)
unchanged and re-enables the save control. -/
theorem failed_upload_preserves_session (s : AppState) (outcome : UploadOutcome)
    (henabled : s.saveDisabled = false) (hfail : outcome ≠ .ok) :
    (savePlacement outcome s).iduPlaced = s.iduPlaced ∧
    (savePlacement outcome s).oduPlaced = s.oduPlaced ∧
    (savePlacement outcome s).linePoints = s.linePoints ∧
    (savePlacement outcome s).objects = s.objects ∧
    (savePlacement outcome s).saveDisabled = false := by
  cases outcome with
  | ok => exact absurd rfl hfail
  | httpError => simp [savePlacement, henabled]
  | netError => simp [savePlacement, henabled]

/-- Witness instantiating `failed_upload_preserves_session` on a concrete
enabled session. -/
theorem failed_upload_preserves_session_witness :
    (enabledSession.saveDisabled = false ∧ (UploadOutcome.netError ≠ .ok)) ∧
    ((savePlacement .netError enabledSession).iduPlaced = enabledSession.iduPlaced ∧
      (savePlacement .netError enabledSession).objects = enabledSession.objects ∧
      (savePlacement .netError enabledSession).saveDisabled = false) := by
  have h := failed_upload_preserves_session enabledSession .netError rfl (by decide)
  exact ⟨⟨rfl, by decide⟩, h.1, h.2.2.2.1, h.2.2.2.2⟩

/-- C10: with the path tool active and exactly one path point placed, any
tap — in particular one within 30 units of that sole point — appends the
tapped point (the path reaches length two) and never finishes the path:
the active tool stays on the path tool. -/
theorem single_point_path_always_extends (s : AppState) (x y : Int)
    (htool : s.currentTool = .line) (hlen : s.linePoints.length = 1) :
    (handleCanvasTap x y false s).linePoints = s.linePoints ++ [⟨x, y⟩] ∧
    (handleCanvasTap x y false s).linePoints.length = 2 ∧
    (handleCanvasTap x y false s).currentTool = .line := by
  have hstep : handleCanvasTap x y false s = addLinePoint x y s := by
    simp [handleCanvasTap, htool]
  rw [hstep, addLinePoint, if_neg (by omega)]
  refine ⟨by simp [updateSaveButton], ?_, by simp [updateSaveButton, htool]⟩
  simp [updateSaveButton, hlen]


/-- Witness instantiating `single_point_path_always_extends` on a concrete
session whose tap lands within 30 units of the sole point. -/
theorem single_point_path_always_extends_witness :
    (singlePointSession.currentTool = .line ∧
      singlePointSession.linePoints.length = 1) ∧
    (handleCanvasTap 5 5 false singlePointSession).linePoints =
      singlePointSession.linePoints ++ [⟨5, 5⟩] := by
  have h := single_point_path_always_extends singlePointSession 5 5 rfl (by decide)
  exact ⟨⟨rfl, by decide⟩, h.1⟩

/-- Filtering with `p` after keeping only elements satisfying `q` equals
filtering with `p` directly, when `p` implies `q`. -/
theorem filter_filter_of_imp {α : Type} (p q : α → Bool) (l : List α)
    (h : ∀ a, p a = true → q a = true) : (l.filter q).filter p = l.filter p := by
  induction l with
  | nil => rfl
  | cons a t ih =>
    cases hq : q a
    · have hp : p a = false := by
        cases hp : p a
        · rfl
        · rw [h a hp] at hq; cases hq
      simp [List.filter_cons, hq, hp, ih]
    · simp [List.filter_cons, hq, ih]

/-- Filtering with `p` after removing everything that would pass it yields
the empty list. -/
theorem filter_filter_eq_nil {α : Type} (p q : α → Bool) (l : List α)
    (h : ∀ a, p a = true → q a = false) : (l.filter q).filter p = [] := by
  induction l with
  | nil => rfl
  | cons a t ih =>
    cases hq : q a
    · simp [List.filter_cons, hq, ih]
    · have hp : p a = false := by
        cases hp : p a
        · rfl
        · rw [h a hp] at hq; cases hq
      simp [List.filter_cons, hq, hp, ih]

/-- Solidifying the canvas preserves the unit markers. -/
theorem unitMarkers_map_solidify (label : UnitLabel) (l : List CanvasObj) :
    unitMarkers label (l.map solidify) = unitMarkers label l := by
  induction l with
  | nil => rfl
  | cons o t ih =>
    unfold unitMarkers at ih ⊢
    rw [List.map_cons, List.filter_cons, List.filter_cons]
    have hsame : isUnitMarker label (solidify o) = isUnitMarker label o := by
      cases o <;> rfl
    rw [hsame]
    cases h : isUnitMarker label o
    · simpa using ih
    · have ho : solidify o = o := by
        cases o <;> simp_all [isUnitMarker, solidify]
      rw [ho]
      simpa using ih

/-- C4: with the path tool active and at least two path points placed, a tap
within distance 30 of the last point (squared distance below 900) finishes
the path — the point list is unchanged, every segment on the canvas becomes
solid, and the active tool switches to IDU placement — while a tap at
distance 30 or more appends the tapped point, growing the path by one. -/
theorem path_finish_or_extend (s : AppState) (x y : Int)
    (htool : s.currentTool = .line) (hlen : s.linePoints.length > 1) :
    (dist2 (s.linePoints.getLastD ⟨0, 0⟩) ⟨x, y⟩ < 900 →
      (handleCanvasTap x y false s).linePoints = s.linePoints ∧
      (handleCanvasTap x y false s).currentTool = .idu ∧
      ∀ o ∈ (handleCanvasTap x y false s).objects,
        isLineSegmentObj o = true → o.dashedFlag = false) ∧
    (900 ≤ dist2 (s.linePoints.getLastD ⟨0, 0⟩) ⟨x, y⟩ →
      (handleCanvasTap x y false s).linePoints = s.linePoints ++ [⟨x, y⟩] ∧
      (handleCanvasTap x y false s).linePoints.length = s.linePoints.length + 1) := by
  have hstep : handleCanvasTap x y false s = addLinePoint x y s := by
    simp [handleCanvasTap, htool]
  constructor
  · intro hdist
    rw [hstep, addLinePoint, if_pos ⟨hlen, hdist⟩, finishLine, if_neg (by omega)]
    refine ⟨rfl, rfl, ?_⟩
    intro o ho hseg
    simp only [selectTool] at ho
    obtain ⟨o', ho', rfl⟩ := List.mem_map.mp ho
    cases o' <;> simp_all [solidify, isLineSegmentObj, CanvasObj.dashedFlag]
  · intro hdist
    rw [hstep, addLinePoint, if_neg (by omega)]
    constructor
    · simp [updateSaveButton]
    · simp [updateSaveButton]

/-- Witness instantiating `path_finish_or_extend` on the specification's
example: path `[(0,0),(100,0)]`, tap at `(105,2)`. -/
theorem path_finish_or_extend_witness :
    (twoPointSession.currentTool = .line ∧ twoPointSession.linePoints.length > 1 ∧
      dist2 (twoPointSession.linePoints.getLastD ⟨0, 0⟩) ⟨105, 2⟩ < 900) ∧
    ((handleCanvasTap 105 2 false twoPointSession).linePoints =
        twoPointSession.linePoints ∧
      (handleCanvasTap 105 2 false twoPointSession).currentTool = .idu) := by
  have h := (path_finish_or_extend twoPointSession 105 2 rfl (by decide)).1 (by decide)
  exact ⟨⟨rfl, by decide, by decide⟩, h.1, h.2.1⟩

/-- A marker of one label is never a marker of a different label. -/
theorem isUnitMarker_imp_not_other {label label' : UnitLabel} (h : label ≠ label') :
    ∀ a : CanvasObj, isUnitMarker label' a = true → (!isUnitMarker label a) = true := by
  intro a ha
  cases a with
  | unitMarker l xx yy =>
    simp only [isUnitMarker, beq_iff_eq] at ha ⊢
    subst ha
    simp [beq_eq_false_iff_ne]
    exact Ne.symm h
  | linePoint xx yy => simp [isUnitMarker] at ha
  | lineSegment a b c d e => simp [isUnitMarker] at ha
  | decor => simp [isUnitMarker] at ha

/-- `placeUnit` leaves exactly one marker of its label, at the tapped
coordinates. -/
theorem unitMarkers_placeUnit_same (label : UnitLabel) (x y : Int) (s : AppState) :
    unitMarkers label (placeUnit label x y s).objects = [.unitMarker label x y] := by
  show List.filter (isUnitMarker label)
      (s.objects.filter (fun o => !isUnitMarker label o) ++ [.unitMarker label x y]) = _
  rw [List.filter_append,
    filter_filter_eq_nil _ _ s.objects (fun a ha => by rw [ha]; rfl)]
  simp [isUnitMarker]

/-- `placeUnit` leaves the markers of the other label untouched. -/
theorem unitMarkers_placeUnit_other {label label' : UnitLabel} (h : label ≠ label')
    (x y : Int) (s : AppState) :
    unitMarkers label' (placeUnit label x y s).objects =
      unitMarkers label' s.objects := by
  show List.filter (isUnitMarker label')
      (s.objects.filter (fun o => !isUnitMarker label o) ++ [.unitMarker label x y]) = _
  rw [List.filter_append,
    filter_filter_of_imp _ _ s.objects (isUnitMarker_imp_not_other h)]
  have hm : isUnitMarker label' (CanvasObj.unitMarker label x y) = false := by
    simp [isUnitMarker, beq_eq_false_iff_ne]
    exact h
  simp [unitMarkers, hm]

/-- `addLinePoint` never changes the unit markers. -/
theorem unitMarkers_addLinePoint (label : UnitLabel) (x y : Int) (s : AppState) :
    unitMarkers label (addLinePoint x y s).objects = unitMarkers label s.objects := by
  rw [addLinePoint]
  by_cases hc : s.linePoints.length > 1 ∧
      dist2 (s.linePoints.getLastD ⟨0, 0⟩) ⟨x, y⟩ < 900
  · rw [if_pos hc, finishLine]
    by_cases h2 : s.linePoints.length < 2
    · rw [if_pos h2]
    · rw [if_neg h2]
      exact unitMarkers_map_solidify label s.objects
  · rw [if_neg hc]
    show unitMarkers label
        (if (s.linePoints ++ [(⟨x, y⟩ : Point)]).length > 1 then
          CanvasObj.lineSegment (s.linePoints.getLastD ⟨0, 0⟩).x
              (s.linePoints.getLastD ⟨0, 0⟩).y x y true ::
            (s.objects ++ [.linePoint x y])
        else s.objects ++ [.linePoint x y]) =
      unitMarkers label s.objects
    split <;> simp [unitMarkers, List.filter_append, List.filter_cons, isUnitMarker]

/-- `clearAll` removes every unit marker. -/
theorem unitMarkers_clearAll (label : UnitLabel) (s : AppState) :
    unitMarkers label (clearAll s).objects = [] := by
  show List.filter (isUnitMarker label)
      (s.objects.filter (fun o =>
        !(isUnitMarker .idu o || isUnitMarker .odu o ||
          isLinePointObj o || isLineSegmentObj o))) = []
  refine filter_filter_eq_nil _ _ s.objects ?_
  intro a ha
  cases label <;> cases a <;>
    simp_all [isUnitMarker, isLinePointObj, isLineSegmentObj]

/-- `savePlacement` never touches the canvas objects. -/
theorem savePlacement_objects (o : UploadOutcome) (s : AppState) :
    (savePlacement o s).objects = s.objects := by
  rw [savePlacement.eq_def]
  by_cases hd : s.saveDisabled = true
  · rw [if_pos hd]
  · rw [if_neg hd]
    cases o <;> rfl

/-- A tap with a unit tool active replaces the markers of that label with
the single tapped marker and keeps the active tool. -/
theorem tap_places_marker (label : UnitLabel) (s : AppState) (x y : Int)
    (htool : s.currentTool = toolOf label) :
    unitMarkers label (handleCanvasTap x y false s).objects =
      [.unitMarker label x y] ∧
    (handleCanvasTap x y false s).currentTool = s.currentTool := by
  cases label with
  | idu =>
    have hstep : handleCanvasTap x y false s =
        updateSaveButton { placeUnit .idu x y s with iduPlaced := true } := by
      simp [handleCanvasTap, htool, toolOf]
    rw [hstep]
    exact ⟨unitMarkers_placeUnit_same .idu x y s, rfl⟩
  | odu =>
    have hstep : handleCanvasTap x y false s =
        updateSaveButton { placeUnit .odu x y s with oduPlaced := true } := by
      simp [handleCanvasTap, htool, toolOf]
    rw [hstep]
    exact ⟨unitMarkers_placeUnit_same .odu x y s, rfl⟩

/-- Every step keeps at most one marker of each label on the canvas. -/
theorem marker_bound_step (e : UserEvent) (s : AppState)
    (h : ∀ label, (unitMarkers label s.objects).length ≤ 1) :
    ∀ label, (unitMarkers label (step e s).objects).length ≤ 1 := by
  intro label
  cases e with
  | tap x y onObject =>
    cases onObject with
    | true => exact h label
    | false =>
      cases htool : s.currentTool with
      | idu =>
        have hstep : step (UserEvent.tap x y false) s =
            updateSaveButton { placeUnit .idu x y s with iduPlaced := true } := by
          simp [step, handleCanvasTap, htool]
        rw [hstep]
        show (unitMarkers label (placeUnit .idu x y s).objects).length ≤ 1
        cases label with
        | idu => rw [unitMarkers_placeUnit_same]; simp
        | odu => rw [unitMarkers_placeUnit_other (by decide)]; exact h .odu
      | odu =>
        have hstep : step (UserEvent.tap x y false) s =
            updateSaveButton { placeUnit .odu x y s with oduPlaced := true } := by
          simp [step, handleCanvasTap, htool]
        rw [hstep]
        show (unitMarkers label (placeUnit .odu x y s).objects).length ≤ 1
        cases label with
        | idu => rw [unitMarkers_placeUnit_other (by decide)]; exact h .idu
        | odu => rw [unitMarkers_placeUnit_same]; simp
      | line =>
        have hstep : step (UserEvent.tap x y false) s = addLinePoint x y s := by
          simp [step, handleCanvasTap, htool]
        rw [hstep, unitMarkers_addLinePoint]
        exact h label
  | chooseTool t => exact h label
  | clear =>
    have hstep : step UserEvent.clear s = clearAll s := rfl
    rw [hstep, unitMarkers_clearAll]
    simp
  | save o =>
    have hstep : (step (UserEvent.save o) s).objects = s.objects :=
      savePlacement_objects o s
    rw [hstep]
    exact h label

/-- Runs from a state with at most one marker per label keep that bound. -/
theorem marker_bound_run (evs : List UserEvent) (s : AppState)
    (h : ∀ label, (unitMarkers label s.objects).length ≤ 1) :
    ∀ label, (unitMarkers label (run evs s).objects).length ≤ 1 := by
  induction evs generalizing s with
  | nil => exact h
  | cons e t ih =>
    have hr : run (e :: t) s = run t (step e s) := rfl
    rw [hr]
    exact ih (step e s) (marker_bound_step e s h)

/-- C5: tapping on empty canvas with a unit tool twice at different
coordinates leaves exactly one marker of that unit type, at the second
coordinate; and along every run of the session from the initial state at
most one marker of each unit type ever exists on the canvas. -/
theorem single_marker_per_unit_type :
    (∀ (label : UnitLabel) (s : AppState) (x1 y1 x2 y2 : Int),
      s.currentTool = toolOf label → ((x1, y1) ≠ (x2, y2)) →
      unitMarkers label
        (handleCanvasTap x2 y2 false (handleCanvasTap x1 y1 false s)).objects =
        [.unitMarker label x2 y2]) ∧
    (∀ (evs : List UserEvent) (label : UnitLabel),
      (unitMarkers label (run evs initialState).objects).length ≤ 1) := by
  constructor
  · intro label s x1 y1 x2 y2 htool hne
    have h1 := tap_places_marker label s x1 y1 htool
    have h2 := tap_places_marker label (handleCanvasTap x1 y1 false s) x2 y2
      (by rw [h1.2, htool])
    exact h2.1
  · intro evs label
    refine marker_bound_run evs initialState ?_ label
    intro l
    cases l <;> simp [initialState, unitMarkers]

/-- Witness instantiating `single_marker_per_unit_type` on a concrete
session with two IDU taps at distinct coordinates. -/
theorem single_marker_per_unit_type_witness :
    (blankIduSession.currentTool = toolOf .idu ∧
      (((1 : Int), (2 : Int)) ≠ ((3 : Int), (4 : Int)))) ∧
    unitMarkers .idu
      (handleCanvasTap 3 4 false (handleCanvasTap 1 2 false blankIduSession)).objects =
      [.unitMarker .idu 3 4] :=
  ⟨⟨rfl, by decide⟩,
    single_marker_per_unit_type.1 .idu blankIduSession 1 2 3 4 rfl (by decide)⟩

/-- `addLinePoint` preserves the marker flags, and either keeps the save
control or recomputes it from the flags. -/
theorem addLinePoint_fields (x y : Int) (s : AppState) :
    (addLinePoint x y s).iduPlaced = s.iduPlaced ∧
    (addLinePoint x y s).oduPlaced = s.oduPlaced ∧
    ((addLinePoint x y s).saveDisabled = s.saveDisabled ∨
      (addLinePoint x y s).saveDisabled = !(s.iduPlaced || s.oduPlaced)) := by
  rw [addLinePoint]
  by_cases hc : s.linePoints.length > 1 ∧
      dist2 (s.linePoints.getLastD ⟨0, 0⟩) ⟨x, y⟩ < 900
  · rw [if_pos hc, finishLine]
    by_cases h2 : s.linePoints.length < 2
    · rw [if_pos h2]
      exact ⟨rfl, rfl, Or.inl rfl⟩
    · rw [if_neg h2]
      exact ⟨rfl, rfl, Or.inl rfl⟩
  · rw [if_neg hc]
    exact ⟨rfl, rfl, Or.inr rfl⟩

/-- Every session mutation or tool selection preserves the eligibility
invariant. -/
theorem eligibility_step (e : UserEvent) (s : AppState)
    (hsave : e.isSave = false) (h : eligibilityInv s) :
    eligibilityInv (step e s) := by
  obtain ⟨h1, h2, h3⟩ := h
  cases e with
  | save o => simp [UserEvent.isSave] at hsave
  | chooseTool t => exact ⟨h1, h2, h3⟩
  | clear =>
    refine ⟨rfl, ?_, ?_⟩
    · constructor
      · intro hidu
        have hfalse : (step UserEvent.clear s).iduPlaced = false := rfl
        rw [hfalse] at hidu
        cases hidu
      · intro hmk
        exact absurd (unitMarkers_clearAll .idu s) hmk
    · constructor
      · intro hodu
        have hfalse : (step UserEvent.clear s).oduPlaced = false := rfl
        rw [hfalse] at hodu
        cases hodu
      · intro hmk
        exact absurd (unitMarkers_clearAll .odu s) hmk
  | tap x y onObject =>
    cases onObject with
    | true => exact ⟨h1, h2, h3⟩
    | false =>
      cases htool : s.currentTool with
      | idu =>
        have hstep : step (UserEvent.tap x y false) s =
            updateSaveButton { placeUnit .idu x y s with iduPlaced := true } := by
          simp [step, handleCanvasTap, htool]
        rw [hstep]
        refine ⟨rfl, ?_, ?_⟩
        · constructor
          · intro _
            show unitMarkers .idu (placeUnit .idu x y s).objects ≠ []
            rw [unitMarkers_placeUnit_same]
            simp
          · intro _
            rfl
        · constructor
          · intro hodu
            show unitMarkers .odu (placeUnit .idu x y s).objects ≠ []
            rw [unitMarkers_placeUnit_other (by decide)]
            exact h3.mp hodu
          · intro hmk
            have hmk2 : unitMarkers .odu (placeUnit .idu x y s).objects ≠ [] := hmk
            rw [unitMarkers_placeUnit_other (by decide)] at hmk2
            exact h3.mpr hmk2
      | odu =>
        have hstep : step (UserEvent.tap x y false) s =
            updateSaveButton { placeUnit .odu x y s with oduPlaced := true } := by
          simp [step, handleCanvasTap, htool]
        rw [hstep]
        refine ⟨rfl, ?_, ?_⟩
        · constructor
          · intro hidu
            show unitMarkers .idu (placeUnit .odu x y s).objects ≠ []
            rw [unitMarkers_placeUnit_other (by decide)]
            exact h2.mp hidu
          · intro hmk
            have hmk2 : unitMarkers .idu (placeUnit .odu x y s).objects ≠ [] := hmk
            rw [unitMarkers_placeUnit_other (by decide)] at hmk2
            exact h2.mpr hmk2
        · constructor
          · intro _
            show unitMarkers .odu (placeUnit .odu x y s).objects ≠ []
            rw [unitMarkers_placeUnit_same]
            simp
          · intro _
            rfl
      | line =>
        have hstep : step (UserEvent.tap x y false) s = addLinePoint x y s := by
          simp [step, handleCanvasTap, htool]
        rw [hstep]
        obtain ⟨f1, f2, f3⟩ := addLinePoint_fields x y s
        have hm1 := unitMarkers_addLinePoint .idu x y s
        have hm2 := unitMarkers_addLinePoint .odu x y s
        refine ⟨?_, ?_, ?_⟩
        · rw [f1, f2]
          rcases f3 with f3 | f3
          · rw [f3, h1]
          · rw [f3]
        · rw [f1, hm1]
          exact h2
        · rw [f2, hm2]
          exact h3

/-- Runs without save events preserve the eligibility invariant. -/
theorem eligibility_run (evs : List UserEvent) (s : AppState)
    (hnosave : ∀ e ∈ evs, e.isSave = false) (h : eligibilityInv s) :
    eligibilityInv (run evs s) := by
  induction evs generalizing s with
  | nil => exact h
  | cons e t ih =>
    have hr : run (e :: t) s = run t (step e s) := rfl
    rw [hr]
    exact ih (step e s) (fun x hx => hnosave x (by simp [hx]))
      (eligibility_step e s (hnosave e (by simp)) h)

/-- C7: along every run of session mutations and tool selections (no save
events) from the initial state, the save control is enabled exactly when an
indoor or an outdoor marker is on the canvas; in particular a session
holding only a path has the save control disabled. -/
theorem save_eligibility_iff_marker (evs : List UserEvent)
    (hnosave : ∀ e ∈ evs, e.isSave = false) :
    ((run evs initialState).saveDisabled = false ↔
      (unitMarkers .idu (run evs initialState).objects ≠ [] ∨
        unitMarkers .odu (run evs initialState).objects ≠ [])) := by
  have hinit : eligibilityInv initialState := by
    refine ⟨rfl, ?_, ?_⟩ <;> simp [initialState, unitMarkers]
  obtain ⟨h1, h2, h3⟩ := eligibility_run evs initialState hnosave hinit
  rw [h1]
  constructor
  · intro hen
    have hor : (run evs initialState).iduPlaced = true ∨
        (run evs initialState).oduPlaced = true := by
      revert hen
      cases (run evs initialState).iduPlaced <;>
        cases (run evs initialState).oduPlaced <;> simp
    rcases hor with hh | hh
    · exact Or.inl (h2.mp hh)
    · exact Or.inr (h3.mp hh)
  · intro hmk
    rcases hmk with hmk | hmk
    · rw [h2.mpr hmk]
      simp
    · rw [h3.mpr hmk]
      simp

/-- Witness instantiating `save_eligibility_iff_marker` on the run that
places one IDU marker. -/
theorem save_eligibility_iff_marker_witness :
    (∀ e ∈ [UserEvent.tap 3 4 false], e.isSave = false) ∧
    ((run [UserEvent.tap 3 4 false] initialState).saveDisabled = false ↔
      (unitMarkers .idu (run [UserEvent.tap 3 4 false] initialState).objects ≠ [] ∨
        unitMarkers .odu (run [UserEvent.tap 3 4 false] initialState).objects ≠ [])) :=
  ⟨by decide, save_eligibility_iff_marker _ (by decide)⟩
